import Mathlib



/-!
Verification development for the SwiftHTTP repository.

The definitions below are shallow embeddings of the TypeScript source:
`parseLimit` (src/utils/helpers.ts), `parseRequestBody`,
`parseMultipartData`, `matchRoute`, `matchWildcardRoute`,
`matchOptionalRoute`, `enhancedMatchRoute` (src/utils/request.ts), and
`executeMiddleware`, `handleRequest`, `formatErrorResponse`
(src/index.ts).  Byte buffers are modelled as `List Char` with one
character per byte (exact for the single-byte data exercised here);
JavaScript objects used as string records are modelled as association
lists with JavaScript assignment semantics (overwrite in place, append
otherwise).
-/

namespace SwiftHttp

/-- `\d` of the JavaScript regexes: an ASCII decimal digit. -/
def isDigitChar (c : Char) : Bool := 48 ≤ c.toNat && c.toNat ≤ 57

/-- Digits-to-number, the value `parseFloat` assigns to the integer part
`\d+` of a match (exact, since the digit strings here are plain decimal). -/
def digitsToNat (ds : List Char) : Nat :=
  ds.foldl (fun a c => 10 * a + (c.toNat - 48)) 0

/-- The component triple recovered by the limit regex
`^(\d+(?:\.\d+)?)(b|kb|mb|gb)?$`: integer digits, fractional digits
(empty when the optional `(?:\.\d+)?` group did not match), and the
multiplier `units[match[2] || "b"]`. -/
structure LimitParts where
  intDigits : List Char
  fracDigits : List Char
  unitMult : Nat
deriving DecidableEq

/-- The `units` record of `parseLimit` applied to `match[2] || "b"`:
an empty suffix defaults to bytes, anything outside the four
alternatives makes the anchored regex fail. -/
def parseUnitSuffix : List Char → Option Nat
  | [] => some 1
  | ['b'] => some 1
  | ['k', 'b'] => some 1024
  | ['m', 'b'] => some (1024 * 1024)
  | ['g', 'b'] => some (1024 * 1024 * 1024)
  | _ => none

/-- The anchored match `^(\d+(?:\.\d+)?)(b|kb|mb|gb)?$` on an
already-lowercased character list.  The greedy groups are deterministic
here: after the maximal digit run, a `.` not followed by a digit can
never be completed by the unit alternatives, so the backtracked
no-fraction attempt fails as well. -/
def matchLimit (s : List Char) : Option LimitParts :=
  let d1 := s.takeWhile isDigitChar
  let r1 := s.dropWhile isDigitChar
  if d1.isEmpty then none
  else
    match r1 with
    | '.' :: r2 =>
      let f := r2.takeWhile isDigitChar
      if f.isEmpty then none
      else (parseUnitSuffix (r2.dropWhile isDigitChar)).map (fun m => ⟨d1, f, m⟩)
    | _ => (parseUnitSuffix r1).map (fun m => ⟨d1, [], m⟩)

/-- `limit.toLowerCase()` on the ASCII inputs in scope. -/
def lowerStr (s : String) : List Char := s.toList.map Char.toLower

/-- `parseLimit` from src/utils/helpers.ts.
`Math.floor(parseFloat(match[1]) * units[unit])` is rendered in exact
arithmetic: the decimal value `a.f` times the multiplier, floored, is
`(a * 10 ^ k + f) * mult / 10 ^ k` in natural-number division (`k` the
number of fractional digits).  This agrees with the IEEE-754 evaluation
wherever the latter is exact, which covers every input appearing in the
claims (`10 * 1024` and `1.5 * 2 ^ 20` are exactly representable). -/
def parseLimit (limit : String) : Except String Nat :=
  match matchLimit (lowerStr limit) with
  | none =>
    .error ("Invalid limit format: " ++ limit ++
      "\n\nHow to use Parse Limit:\n1 Megabyte: 1mb/1MB/1mB/1Mb\n10 Gigabytes: 10gb/10GB/10Gb/10gB\n100 bytes: 100b/100B")
  | some p =>
    .ok ((digitsToNat p.intDigits * 10 ^ p.fracDigits.length + digitsToNat p.fracDigits)
          * p.unitMult / 10 ^ p.fracDigits.length)

/-! ## Body reader (`parseRequestBody`, src/utils/request.ts lines 9-110)

The stream is modelled as the list of `data`-event chunks delivered
before `end`; a chunk is a `List Char` (one character per byte).  The
promise's first `reject` wins, but the `data` handler keeps executing
for later chunks, exactly as in the source. -/

/-- The mutable state of the `data` handler: the `chunks` array, the
`totalSize` counter, and the settled rejection (if any). -/
structure StreamState where
  chunks : List (List Char)
  totalSize : Nat
  rejection : Option String
deriving DecidableEq

/-- The message of `new Error` raised when the running total crosses the
limit mid-stream. -/
def entityTooLargeSize (size limitBytes : Nat) : String :=
  "Request entity too large. Size: " ++ toString size ++ ", Limit: " ++ toString limitBytes

/-- The message of `new Error` raised on the cheap `Content-Length` check. -/
def entityTooLargeCL (contentLength limitBytes : Nat) : String :=
  "Request entity too large. Content-Length: " ++ toString contentLength ++
    ", Limit: " ++ toString limitBytes

/-- One `data` event (src/utils/request.ts lines 42-56): bump
`totalSize`, reject (keeping an earlier rejection if one settled first)
and skip the push when the total exceeds the limit, push otherwise. -/
def onData (limitBytes : Nat) (st : StreamState) (chunk : List Char) : StreamState :=
  let total := st.totalSize + chunk.length
  if total > limitBytes then
    { chunks := st.chunks
      totalSize := total
      rejection := match st.rejection with
        | some m => some m
        | none => some (entityTooLargeSize total limitBytes) }
  else
    { chunks := st.chunks ++ [chunk], totalSize := total, rejection := st.rejection }

/-- The whole stream of `data` events, starting from the empty buffer. -/
def streamRun (limitBytes : Nat) (cs : List (List Char)) : StreamState :=
  cs.foldl (onData limitBytes) ⟨[], 0, none⟩

/-- Total byte count of a chunk list (`Buffer.concat` length). -/
def totalBytes (cs : List (List Char)) : Nat := (cs.map List.length).sum

/-- What the promise settles to on `end` (src/utils/request.ts lines
58-96): the recorded rejection if one settled, `null` for an empty
buffer, otherwise the concatenated buffer.  The content-type-specific
decoding of that completed buffer (JSON / urlencoded / text) happens
after this point in the source and is not involved in the claims. -/
def streamOutcome (st : StreamState) : Except String (Option (List Char)) :=
  match st.rejection with
  | some m => .error m
  | none => if st.chunks.isEmpty then .ok none else .ok (some st.chunks.flatten)

/-- Result of `parseRequestBody`: how many `data` events were delivered
to an attached handler, the chunks buffered at settlement, and the
settled value. -/
structure BodyReadResult where
  consumedChunks : Nat
  buffered : List (List Char)
  outcome : Except String (Option (List Char))

/-- `parseRequestBody` (src/utils/request.ts lines 9-110) for a stream
that ends cleanly after `cs`: parse the limit, reject on the declared
`Content-Length` before any listener is attached (so no chunk is
consumed), otherwise run the `data` handler over every chunk. -/
def parseRequestBody (limit : String) (contentLength : Nat)
    (cs : List (List Char)) : BodyReadResult :=
  match parseLimit limit with
  | .error e => ⟨0, [], .error e⟩
  | .ok limitBytes =>
    if contentLength > limitBytes then
      ⟨0, [], .error (entityTooLargeCL contentLength limitBytes)⟩
    else
      let st := streamRun limitBytes cs
      ⟨cs.length, st.chunks, streamOutcome st⟩

/-- Reference shape of the buffered prefix: chunks are kept up to (and
excluding) the first chunk whose arrival pushes the running total past
the limit. -/
def goodPrefixAux (limitBytes acc : Nat) : List (List Char) → List (List Char)
  | [] => []
  | c :: cs =>
    if acc + c.length > limitBytes then []
    else c :: goodPrefixAux limitBytes (acc + c.length) cs

/-- Reference shape of the settled rejection: the entity-too-large error
of the first overflowing chunk, if any. -/
def rejAux (limitBytes acc : Nat) : List (List Char) → Option String
  | [] => none
  | c :: cs =>
    if acc + c.length > limitBytes then
      some (entityTooLargeSize (acc + c.length) limitBytes)
    else rejAux limitBytes (acc + c.length) cs

/-! ## Middleware dispatch (`executeMiddleware` / `handleRequest`, src/index.ts)

A middleware's observable behaviour towards the dispatcher is what it
does with the response and the continuation: return without calling
`next()` (optionally after writing a response), call `next()` exactly
once (optionally after writing), or call `next()` twice.  The source's
`executeMiddleware` keeps a shared mutable `index` initialised to `0`,
guards every `dispatch(i)` with `if (i <= index) throw`, and each
`next` closure carries a `nextCalled` flag whose second use throws the
same error. -/

/-- Observable behaviour of one middleware. -/
inductive MwB
  | stop (writes : Bool)
  | next (writes : Bool)
  | nextTwice (writes : Bool)
deriving DecidableEq

/-- The dispatcher state: the shared `index` cursor, whether
`res.headersSent` is set, and which middleware bodies were entered
(in order). -/
structure DState where
  index : Nat
  headersSent : Bool
  invoked : List Nat
deriving DecidableEq

/-- Result of a dispatch: final state plus the propagated rejection, if
any. -/
structure MwResult where
  state : DState
  failure : Option String
deriving DecidableEq

/-- `dispatch(i)` of `executeMiddleware` (src/index.ts lines 362-388).
The first `Nat` is fuel (strictly larger than the number of possible
advances, so the out-of-fuel branch is unreachable).  Mirrors the
source: guard `i <= index`, advance `index`, return when `i` is past the
end, otherwise run middleware `i`; a second `next()` from the same
middleware throws the double-invocation error after the inner dispatch
returns.  The source's final `if (!nextCalled && !res.headersSent)
return` falls through to the same plain return, so it adds nothing
observable. -/
def dispatchAux (mws : List MwB) : Nat → Nat → DState → MwResult
  | 0, _, st => ⟨st, some "out of fuel"⟩
  | fuel + 1, i, st =>
    if i ≤ st.index then ⟨st, some "next() called multiple times"⟩
    else
      let st1 : DState := ⟨i, st.headersSent, st.invoked⟩
      if h : i < mws.length then
        let st2 : DState := ⟨st1.index, st1.headersSent, st1.invoked ++ [i]⟩
        match mws.get ⟨i, h⟩ with
        | .stop w => ⟨⟨st2.index, st2.headersSent || w, st2.invoked⟩, none⟩
        | .next w =>
          dispatchAux mws fuel (i + 1) ⟨st2.index, st2.headersSent || w, st2.invoked⟩
        | .nextTwice w =>
          match dispatchAux mws fuel (i + 1) ⟨st2.index, st2.headersSent || w, st2.invoked⟩ with
          | ⟨st3, none⟩ => ⟨st3, some "next() called multiple times"⟩
          | ⟨st3, some e⟩ => ⟨st3, some e⟩
      else ⟨st1, none⟩

/-- `executeMiddleware` (src/index.ts lines 359-391): `let index = 0`
followed by `await dispatch(0)`. -/
def executeMiddleware (mws : List MwB) (headersSent : Bool) : MwResult :=
  dispatchAux mws (mws.length + 1) 0 ⟨0, headersSent, []⟩

/-- Outcome of the dispatch portion of `handleRequest` for one request. -/
structure PipelineOutcome where
  globalInvoked : List Nat
  routeInvoked : List Nat
  handlerRan : Bool
  failure : Option String
deriving DecidableEq

/-- The dispatch portion of `handleRequest` (src/index.ts lines
292-306): run the global chain; on rejection the catch block takes over
(handler never runs); otherwise stop if headers were sent, run the
route-scoped chain when the route has one, stop again on sent headers,
and finally run the handler. -/
def handleRequestCore (globalMws : List MwB) (routeMws : Option (List MwB)) :
    PipelineOutcome :=
  let r1 := executeMiddleware globalMws false
  match r1.failure with
  | some e => ⟨r1.state.invoked, [], false, some e⟩
  | none =>
    if r1.state.headersSent then ⟨r1.state.invoked, [], false, none⟩
    else
      match routeMws with
      | some rmw =>
        let r2 := executeMiddleware rmw r1.state.headersSent
        match r2.failure with
        | some e => ⟨r1.state.invoked, r2.state.invoked, false, some e⟩
        | none =>
          if r2.state.headersSent then ⟨r1.state.invoked, r2.state.invoked, false, none⟩
          else ⟨r1.state.invoked, r2.state.invoked, true, none⟩
      | none => ⟨r1.state.invoked, [], true, none⟩

/-! ## Route matching (src/utils/request.ts lines 375-509)

Segments are `List Char`; `path.split("/").filter(Boolean)` becomes
`segsOf`.  Parameter records are association lists with JavaScript
assignment semantics (`setField`). -/

/-- JavaScript object property assignment `obj[k] = v` on a string
record: overwrite in place when the key exists, append otherwise. -/
def setField (fields : List (String × String)) (k v : String) :
    List (String × String) :=
  if fields.any (fun p => p.1 == k) then
    fields.map (fun p => if p.1 == k then (k, v) else p)
  else fields ++ [(k, v)]

/-- `String.prototype.split("/")` accumulator: `acc` is the current
segment, reversed. -/
def splitSegsAux : List Char → List Char → List (List Char)
  | acc, [] => [acc.reverse]
  | acc, c :: rest =>
    if c = '/' then acc.reverse :: splitSegsAux [] rest
    else splitSegsAux (c :: acc) rest

/-- `path.split("/").filter(Boolean)`: the non-empty `/`-delimited
segments. -/
def segsOf (s : String) : List (List Char) :=
  (splitSegsAux [] s.toList).filter (fun l => !l.isEmpty)

/-- Value of one hex digit, for percent-escapes. -/
def hexVal (c : Char) : Option Nat :=
  if 48 ≤ c.toNat ∧ c.toNat ≤ 57 then some (c.toNat - 48)
  else if 65 ≤ c.toNat ∧ c.toNat ≤ 70 then some (c.toNat - 55)
  else if 97 ≤ c.toNat ∧ c.toNat ≤ 102 then some (c.toNat - 87)
  else none

/-- Modelled from the `decodeURIComponent` builtin, restricted to
single-byte (ASCII) percent escapes: `%XY` with two hex digits decodes
to the byte it names, anything else passes through.  Multi-byte UTF-8
escape sequences and the `URIError` on malformed input are outside the
fragment the routes in the claims exercise (their segments contain no
`%` at all, where the builtin is the identity, as here). -/
def decodeURIComponent (s : String) : String :=
  String.mk (decodeChars s.toList)
where
  decodeChars : List Char → List Char
    | [] => []
    | '%' :: a :: b :: rest =>
      match hexVal a, hexVal b with
      | some x, some y => Char.ofNat (16 * x + y) :: decodeChars rest
      | _, _ => '%' :: decodeChars (a :: b :: rest)
    | c :: rest => c :: decodeChars rest

/-- A match outcome: the `{ matches, params }` object (the JavaScript
field `matches` is spelled `matched` here). -/
structure MatchResult where
  matched : Bool
  params : List (String × String)
deriving DecidableEq

/-- `routeSegment.startsWith(":")`. -/
def segIsParam (r : List Char) : Bool := r.head? == some ':'

/-- `routeSegment.startsWith(":") && routeSegment.endsWith("?")`. -/
def segIsOptional (r : List Char) : Bool := segIsParam r && r.getLast? == some '?'

/-- The loop of `matchRoute` (src/utils/request.ts lines 388-398), after
the segment-count check: `:name` segments bind the percent-decoded path
segment, literal segments must be equal, a mismatch returns
`{matches: false, params: {}}`. -/
def matchSegsAux : List (List Char) → List (List Char) → List (String × String) →
    MatchResult
  | [], [], ps => ⟨true, ps⟩
  | r :: rs, q :: qs, ps =>
    if segIsParam r then
      matchSegsAux rs qs
        (setField ps (String.mk (r.drop 1)) (decodeURIComponent (String.mk q)))
    else if r = q then matchSegsAux rs qs ps
    else ⟨false, []⟩
  | _, _, _ => ⟨false, []⟩

/-- `matchRoute` (src/utils/request.ts lines 375-401): equal segment
counts, then the lock-step loop. -/
def matchRoute (routePath requestPath : String) : MatchResult :=
  let rs := segsOf routePath
  let qs := segsOf requestPath
  if rs.length = qs.length then matchSegsAux rs qs [] else ⟨false, []⟩

/-- `t.isSuffixOf s` on strings: `s.endsWith(t)`. -/
def strEndsWith (s t : String) : Bool := List.isSuffixOf t.toList s.toList

/-- `s.startsWith(t)`. -/
def strStartsWith (s t : String) : Bool := List.isPrefixOf t.toList s.toList

/-- `s.slice(0, -n)` for `n ≤ s.length`. -/
def strDropRight (s : String) (n : Nat) : String :=
  String.mk (s.toList.take (s.toList.length - n))

/-- `s.slice(n)`. -/
def strDropFirst (s : String) (n : Nat) : String := String.mk (s.toList.drop n)

/-- `s.length`. -/
def strLength (s : String) : Nat := s.toList.length

/-- `s.includes(c)` for a one-character needle. -/
def strContains (s : String) (c : Char) : Bool := s.toList.contains c

/-- `matchWildcardRoute` (src/utils/request.ts lines 403-422): a bare
`*` matches anything; a pattern ending in `/*` matches any path having
the part before `/*` as a string prefix, binding the rest of the path to
`wildcard`; everything else fails. -/
def matchWildcardRoute (routePath requestPath : String) : MatchResult :=
  if routePath = "*" then ⟨true, []⟩
  else if strEndsWith routePath "/*" then
    if strStartsWith requestPath (strDropRight routePath 2) then
      ⟨true, [("wildcard", strDropFirst requestPath (strLength (strDropRight routePath 2)))]⟩
    else ⟨false, []⟩
  else ⟨false, []⟩

/-- The loop of `matchOptionalRoute` (src/utils/request.ts lines
435-463) with the final `requestIndex === requestSegments.length` check:
an optional `:name?` segment consumes the next path segment when one
remains and is skipped otherwise; a required `:name` segment must
consume one; a literal segment must equal the next path segment; when
the pattern is exhausted, the match succeeds exactly when every path
segment was consumed (the accumulated params are returned either way,
as in the source). -/
def optWalk : List (List Char) → List (List Char) → List (String × String) →
    MatchResult
  | [], qs, ps => ⟨qs.isEmpty, ps⟩
  | r :: rs, qs, ps =>
    if segIsOptional r then
      match qs with
      | [] => optWalk rs [] ps
      | q :: qs' =>
        optWalk rs qs'
          (setField ps (String.mk ((r.drop 1).dropLast))
            (decodeURIComponent (String.mk q)))
    else if segIsParam r then
      match qs with
      | [] => ⟨false, []⟩
      | q :: qs' =>
        optWalk rs qs'
          (setField ps (String.mk (r.drop 1)) (decodeURIComponent (String.mk q)))
    else
      match qs with
      | [] => ⟨false, []⟩
      | q :: qs' => if r = q then optWalk rs qs' ps else ⟨false, []⟩

/-- `matchOptionalRoute` (src/utils/request.ts lines 424-469). -/
def matchOptionalRoute (routePath requestPath : String) : MatchResult :=
  optWalk (segsOf routePath) (segsOf requestPath) []

/-- `enhancedMatchRoute` (src/utils/request.ts lines 490-509) on string
patterns: wildcard when the pattern contains `*`, optional-parameter
matching when it contains `?`, plain matching otherwise.  (The `RegExp`
branch takes a non-string pattern and is not involved in the claims.) -/
def enhancedMatchRoute (routePath requestPath : String) : MatchResult :=
  if strContains routePath '*' then matchWildcardRoute routePath requestPath
  else if strContains routePath '?' then matchOptionalRoute routePath requestPath
  else matchRoute routePath requestPath

/-! ## Multipart parsing (src/utils/request.ts lines 115-232)

Buffers are `List Char` (one character per byte); `Buffer.indexOf`
becomes `indexOfFrom`, the header regexes become explicit
first-position-that-matches scans.  Both regexes are deterministic
except for `\s*` running into the `[^\r\n]+` capture of the
Content-Type pattern, which is treated exactly (see `ctAt`). -/

/-- `\s` of the JavaScript regexes, restricted to its ASCII members
(the Unicode space classes do not occur in the data in scope). -/
def isWsChar (c : Char) : Bool :=
  c == ' ' || c == '\t' || c == '\n' || c == '\r' || c == '\x0b' || c == '\x0c'

/-- Match a lowercase-spelled literal case-insensitively (the `/i` flag)
at the head of the input, returning the rest. -/
def stripCI : List Char → List Char → Option (List Char)
  | [], l => some l
  | _ :: _, [] => none
  | c :: cs, d :: ds => if d.toLower = c then stripCI cs ds else none

/-- `RegExp.exec` search: the first position (left to right, the empty
suffix included) at which the position-anchored matcher succeeds. -/
def scanFirst {α : Type} (f : List Char → Option α) : List Char → Option α
  | [] => f []
  | l@(_ :: rest) =>
    match f l with
    | some a => some a
    | none => scanFirst f rest

/-- The optional group `(?:;\s*filename="([^"]*)")?` immediately after
the closing quote of `name="..."`: `none` when the group does not match
(the overall match then succeeds without a filename). -/
def fnGroup (l : List Char) : Option String :=
  match l with
  | ';' :: r =>
    match stripCI "filename=\"".toList (r.dropWhile isWsChar) with
    | none => none
    | some r2 =>
      let fn := r2.takeWhile (fun c => c != '\"')
      match r2.drop fn.length with
      | '\"' :: _ => some (String.mk fn)
      | _ => none
  | _ => none

/-- The pattern
`Content-Disposition:\s*form-data;\s*name="([^"]+)"(?:;\s*filename="([^"]*)")?`
anchored at the current position.  Every greedy piece here is
deterministic: `\s*` is followed by a non-whitespace literal and
`[^"]+`/`[^"]*` are followed by `"`, so no backtracking changes the
outcome. -/
def dispAt (l : List Char) : Option (String × Option String) := do
  let r1 ← stripCI "content-disposition:".toList l
  let r2 ← stripCI "form-data;".toList (r1.dropWhile isWsChar)
  let r3 ← stripCI "name=\"".toList (r2.dropWhile isWsChar)
  let nm := r3.takeWhile (fun c => c != '\"')
  if nm.isEmpty then none
  else
    match r3.drop nm.length with
    | '\"' :: r4 => some (String.mk nm, fnGroup r4)
    | _ => none

/-- `parseContentDisposition` (src/utils/request.ts lines 136-149):
field name and optional filename, `none` when the regex finds no match
anywhere in the header block. -/
def parseContentDisposition (headerChars : List Char) :
    Option (String × Option String) :=
  scanFirst dispAt headerChars

/-- `String.prototype.trim()`. -/
def trimChars (l : List Char) : List Char :=
  ((l.dropWhile isWsChar).reverse.dropWhile isWsChar).reverse

/-- The pattern `Content-Type:\s*([^\r\n]+)` anchored at the current
position, capture trimmed.  When the maximal whitespace run is followed
by CR, LF or the end, the greedy `\s*` backtracks: the match still
succeeds if the run contains a non-CRLF whitespace character (the
capture is then whitespace only and trims to the empty string), and
fails otherwise. -/
def ctAt (l : List Char) : Option String := do
  let r1 ← stripCI "content-type:".toList l
  let ws := r1.takeWhile isWsChar
  let t := (r1.drop ws.length).takeWhile (fun c => c != '\r' && c != '\n')
  if !t.isEmpty then some (String.mk (trimChars t))
  else if ws.any (fun c => c != '\r' && c != '\n') then some ""
  else none

/-- `parseContentType` (src/utils/request.ts lines 154-161): the trimmed
capture, defaulting to `application/octet-stream`. -/
def parseContentType (headerChars : List Char) : String :=
  (scanFirst ctAt headerChars).getD "application/octet-stream"

/-- Is `needle` present at offset `i` of `hay`? -/
def occursAt (needle hay : List Char) (i : Nat) : Bool :=
  List.isPrefixOf needle (hay.drop i)

/-- `Buffer.prototype.indexOf(needle, start)`: the first offset at or
after `start` where `needle` occurs. -/
def indexOfFrom (needle hay : List Char) (start : Nat) : Option Nat :=
  (List.range (hay.length + 1)).find? (fun i => decide (start ≤ i) && occursAt needle hay i)

/-- The `while (true)` loop of `splitBufferByBoundary` (src/utils/
request.ts lines 120-128): find the next boundary, push the segment
since the previous one (skipping the preamble before the first
boundary), continue past it; the trailing bytes after the last boundary
are dropped when no further boundary is found.  The first argument is
fuel; each iteration advances `start` by at least the boundary length
(≥ 2), so `buffer.length + 1` steps are never exhausted. -/
def splitLoop (bb buf : List Char) : Nat → Nat → List (List Char)
  | 0, _ => []
  | fuel + 1, start =>
    match indexOfFrom bb buf start with
    | none => []
    | some bi =>
      let rest := splitLoop bb buf fuel (bi + bb.length)
      if start = 0 then rest else ((buf.drop start).take (bi - start)) :: rest

/-- `splitBufferByBoundary` (src/utils/request.ts lines 115-131), the
boundary buffer being `"--" + boundary`. -/
def splitBufferByBoundary (buffer : List Char) (boundary : String) : List (List Char) :=
  splitLoop ('-' :: '-' :: boundary.toList) buffer (buffer.length + 1) 0

/-- The `\r\n\r\n` header/body separator. -/
def crlfcrlf : List Char := ['\r', '\n', '\r', '\n']

/-- One entry of the `files` array. -/
structure FilePart where
  name : String
  filename : String
  mimetype : String
  data : List Char
deriving DecidableEq

/-- `processPart` (src/utils/request.ts lines 166-198): skip the part
when it has no blank-line separator or no parsable disposition; a
disposition with a filename classifies the part as a file (with the
declared or defaulted MIME type and the raw body bytes); one without a
filename stores the body, decoded as text, as a field under its name. -/
def processPart (part : List Char) (fields : List (String × String))
    (files : List FilePart) : List (String × String) × List FilePart :=
  match indexOfFrom crlfcrlf part 0 with
  | none => (fields, files)
  | some headerEnd =>
    let headerString := part.take headerEnd
    let bodyBuffer := part.drop (headerEnd + 4)
    match parseContentDisposition headerString with
    | none => (fields, files)
    | some (fieldName, some filename) =>
      (fields, files ++ [⟨fieldName, filename, parseContentType headerString, bodyBuffer⟩])
    | some (fieldName, none) =>
      (setField fields fieldName (String.mk bodyBuffer), files)

/-- `parseMultipartData` (src/utils/request.ts lines 203-232): split on
the boundary and process every non-empty part. -/
def parseMultipartData (buffer : List Char) (boundary : String) :
    List (String × String) × List FilePart :=
  (splitBufferByBoundary buffer boundary).foldl
    (fun acc part => if part.length > 0 then processPart part acc.1 acc.2 else acc)
    ([], [])

/-! ## Error response formatting (`formatErrorResponse`, src/index.ts
lines 445-479)

The `details` payload is opaque to the formatter, so it is a type
parameter; `undefined` fields are `none`.  The codebase only ever puts
objects (always truthy) into `details`, so JavaScript truthiness of a
present `details` coincides with `Option.isSome`.  The timestamp string
is passed in for the `new Date().toISOString()` read. -/

/-- The request fields the development snapshot copies. -/
structure ReqM where
  method : String
  path : String
  headers : List (String × String)
  params : List (String × String)
  query : List (String × String)
deriving DecidableEq

/-- A normalised `SwiftError` as `formatErrorResponse` consumes it. -/
structure SwiftErrorM (δ : Type) where
  message : String
  statusCode : Nat
  code : Option String
  details : Option δ
  stack : Option String

/-- The JSON error body built by `formatErrorResponse` (the
`requestId`/`duration` fields are added later by `handleError` and are
not part of this function). -/
structure ErrResponseM (δ : Type) where
  error : String
  status : Nat
  code : Option String
  timestamp : String
  details : Option δ
  stack : Option String
  request : Option ReqM

/-- `formatErrorResponse` (src/index.ts lines 445-479): in development
mode the base response plus details, stack and a request snapshot; in
production a fresh object whose message is the generic phrase for
statuses ≥ 500, carrying `details` only for sub-500 statuses, and no
code, stack or request snapshot. -/
def formatErrorResponse {δ : Type} (e : SwiftErrorM δ) (req : ReqM)
    (isDevelopment : Bool) (now : String) : ErrResponseM δ :=
  if isDevelopment then
    { error := e.message, status := e.statusCode, code := e.code, timestamp := now,
      details := e.details, stack := e.stack, request := some req }
  else
    { error := if e.statusCode ≥ 500 then "Internal Server Error" else e.message,
      status := e.statusCode, code := none, timestamp := now,
      details := if e.statusCode < 500 then e.details else none,
      stack := none, request := none }

/-! ## Theorems -/

lemma takeWhile_of_all {p : Char → Bool} :
    ∀ l : List Char, l.all p = true → l.takeWhile p = l := by
  intro l h
  induction l with
  | nil => rfl
  | cons c cs ih =>
    rw [List.all_cons, Bool.and_eq_true] at h
    simp [List.takeWhile_cons, h.1, ih h.2]

lemma dropWhile_of_all {p : Char → Bool} :
    ∀ l : List Char, l.all p = true → l.dropWhile p = [] := by
  intro l h
  induction l with
  | nil => rfl
  | cons c cs ih =>
    rw [List.all_cons, Bool.and_eq_true] at h
    simp [List.dropWhile_cons, h.1, ih h.2]

lemma toLower_of_digit (c : Char) (h : isDigitChar c = true) : c.toLower = c := by
  simp [isDigitChar, Bool.and_eq_true, decide_eq_true_eq] at h
  unfold Char.toLower
  rw [if_neg]
  simp only [Bool.and_eq_true, decide_eq_true_eq, not_and]
  omega

lemma map_toLower_of_digits :
    ∀ l : List Char, l.all isDigitChar = true → l.map Char.toLower = l := by
  intro l h
  induction l with
  | nil => rfl
  | cons c cs ih =>
    rw [List.all_cons, Bool.and_eq_true] at h
    simp [toLower_of_digit c h.1, ih h.2]

/-- Claim C4: `parseLimit("10kb")` is 10240; `parseLimit("1.5mb")` is
1572864 (the value-times-unit product floored); `parseLimit("bogus")`
fails with a descriptive error; and a digit-only input (no unit suffix)
is interpreted in bytes, i.e. evaluates to its own numeric value. -/
theorem c4_parseLimit_grammar_and_values :
    parseLimit "10kb" = .ok 10240 ∧
    parseLimit "1.5mb" = .ok 1572864 ∧
    (∃ m, parseLimit "bogus" = .error m) ∧
    (∀ ds : List Char, ds ≠ [] → ds.all isDigitChar = true →
      parseLimit (String.mk ds) = .ok (digitsToNat ds)) := by
  refine ⟨rfl, rfl, ⟨_, rfl⟩, ?_⟩
  intro ds hne hall
  have hlist : lowerStr (String.mk ds) = ds := by
    simp only [lowerStr]
    show ds.map Char.toLower = ds
    exact map_toLower_of_digits ds hall
  unfold parseLimit
  rw [hlist]
  unfold matchLimit
  rw [takeWhile_of_all ds hall, dropWhile_of_all ds hall]
  have hne' : ds.isEmpty = false := by
    cases ds with
    | nil => exact absurd rfl hne
    | cons a l => rfl
  simp [hne', parseUnitSuffix, digitsToNat]

/-- Witness for the universally quantified conjunct of C4: the unitless
input `"100"` parses to 100 bytes. -/
theorem c4_parseLimit_grammar_and_values_witness :
    parseLimit "100" = .ok 100 := by
  have h := c4_parseLimit_grammar_and_values.2.2.2 ['1', '0', '0']
    (by decide) (by decide)
  simpa [digitsToNat] using h

lemma foldl_onData_rejected (limitBytes : Nat) :
    ∀ (cs : List (List Char)) (buf : List (List Char)) (acc : Nat) (m : String),
      limitBytes < acc →
      cs.foldl (onData limitBytes) ⟨buf, acc, some m⟩ =
        ⟨buf, acc + totalBytes cs, some m⟩ := by
  intro cs
  induction cs with
  | nil => intro buf acc m _; simp [totalBytes]
  | cons c cs ih =>
    intro buf acc m h
    have hov : acc + c.length > limitBytes := by omega
    rw [List.foldl_cons]
    show List.foldl (onData limitBytes) (onData limitBytes ⟨buf, acc, some m⟩ c) cs = _
    rw [show onData limitBytes ⟨buf, acc, some m⟩ c =
        ⟨buf, acc + c.length, some m⟩ by simp [onData, hov]]
    rw [ih buf (acc + c.length) m (by omega)]
    simp [totalBytes]
    omega

lemma foldl_onData_clean (limitBytes : Nat) :
    ∀ (cs : List (List Char)) (buf : List (List Char)) (acc : Nat),
      cs.foldl (onData limitBytes) ⟨buf, acc, none⟩ =
        ⟨buf ++ goodPrefixAux limitBytes acc cs, acc + totalBytes cs,
          rejAux limitBytes acc cs⟩ := by
  intro cs
  induction cs with
  | nil => intro buf acc; simp [goodPrefixAux, rejAux, totalBytes]
  | cons c cs ih =>
    intro buf acc
    rw [List.foldl_cons]
    by_cases hov : acc + c.length > limitBytes
    · show List.foldl (onData limitBytes) (onData limitBytes ⟨buf, acc, none⟩ c) cs = _
      rw [show onData limitBytes ⟨buf, acc, none⟩ c =
          ⟨buf, acc + c.length, some (entityTooLargeSize (acc + c.length) limitBytes)⟩ by
        simp [onData, hov]]
      rw [foldl_onData_rejected limitBytes cs buf (acc + c.length) _ (by omega)]
      simp [goodPrefixAux, rejAux, hov, totalBytes]
      omega
    · show List.foldl (onData limitBytes) (onData limitBytes ⟨buf, acc, none⟩ c) cs = _
      rw [show onData limitBytes ⟨buf, acc, none⟩ c =
          ⟨buf ++ [c], acc + c.length, none⟩ by simp [onData, hov]]
      rw [ih (buf ++ [c]) (acc + c.length)]
      simp [goodPrefixAux, rejAux, hov, totalBytes]
      omega

/-- The buffered prefix never holds more than the limit. -/
lemma goodPrefixAux_bytes_le (limitBytes : Nat) :
    ∀ (cs : List (List Char)) (acc : Nat), acc ≤ limitBytes →
      acc + totalBytes (goodPrefixAux limitBytes acc cs) ≤ limitBytes := by
  intro cs
  induction cs with
  | nil => intro acc h; simpa [goodPrefixAux, totalBytes] using h
  | cons c cs ih =>
    intro acc h
    by_cases hov : acc + c.length > limitBytes
    · simpa [goodPrefixAux, hov, totalBytes] using h
    · have hrec := ih (acc + c.length) (by omega)
      rw [show goodPrefixAux limitBytes acc (c :: cs) =
          c :: goodPrefixAux limitBytes (acc + c.length) cs by simp [goodPrefixAux, hov]]
      simp only [totalBytes, List.map_cons, List.sum_cons] at *
      omega

/-- The characterization of the first overflow: with the running total at
`acc`, if the first `k` chunks stay within the limit and chunk `k + 1`
crosses it, the handler settles the rejection at that chunk and buffers
exactly the first `k` chunks. -/
lemma overflow_characterization (limitBytes : Nat) :
    ∀ (cs : List (List Char)) (k acc : Nat),
      acc + totalBytes (cs.take k) ≤ limitBytes →
      acc + totalBytes (cs.take (k + 1)) > limitBytes →
      rejAux limitBytes acc cs =
        some (entityTooLargeSize (acc + totalBytes (cs.take (k + 1))) limitBytes) ∧
      goodPrefixAux limitBytes acc cs = cs.take k := by
  intro cs
  induction cs with
  | nil =>
    intro k acc h1 h2
    simp [totalBytes] at h1 h2
    omega
  | cons c cs ih =>
    intro k acc h1 h2
    cases k with
    | zero =>
      simp only [List.take_zero, totalBytes, List.map_nil, List.sum_nil, Nat.add_zero] at h1
      have hc : acc + totalBytes ([c] : List (List Char)) > limitBytes := by
        simpa [List.take_succ_cons] using h2
      simp only [totalBytes, List.map_cons, List.map_nil, List.sum_cons, List.sum_nil,
        Nat.add_zero] at hc
      constructor
      · simp only [rejAux, if_pos hc]
        have : acc + totalBytes ((c :: cs).take 1) = acc + c.length := by
          simp [totalBytes]
        rw [this]
      · simp [goodPrefixAux, hc]
    | succ k =>
      simp only [List.take_succ_cons, totalBytes, List.map_cons, List.sum_cons] at h1 h2
      have hno : ¬ acc + c.length > limitBytes := by omega
      have ihres := ih k (acc + c.length)
        (by simp only [totalBytes]; omega) (by simp only [totalBytes]; omega)
      constructor
      · rw [show rejAux limitBytes acc (c :: cs) = rejAux limitBytes (acc + c.length) cs by
          simp [rejAux, hno]]
        rw [ihres.1]
        have : acc + c.length + totalBytes (cs.take (k + 1)) =
            acc + totalBytes ((c :: cs).take (k + 1 + 1)) := by
          simp [totalBytes, List.take_succ_cons]
          omega
        rw [this]
      · rw [show goodPrefixAux limitBytes acc (c :: cs) =
            c :: goodPrefixAux limitBytes (acc + c.length) cs by simp [goodPrefixAux, hno]]
        rw [ihres.2, List.take_succ_cons]

/-- When the whole stream stays within the limit nothing is rejected and
every chunk is buffered. -/
lemma clean_characterization (limitBytes : Nat) :
    ∀ (cs : List (List Char)) (acc : Nat),
      acc + totalBytes cs ≤ limitBytes →
      rejAux limitBytes acc cs = none ∧ goodPrefixAux limitBytes acc cs = cs := by
  intro cs
  induction cs with
  | nil => intro acc _; simp [rejAux, goodPrefixAux]
  | cons c cs ih =>
    intro acc h
    simp only [totalBytes, List.map_cons, List.sum_cons] at h
    have hno : ¬ acc + c.length > limitBytes := by omega
    have ihres := ih (acc + c.length) (by simp only [totalBytes]; omega)
    constructor
    · simp [rejAux, hno, ihres.1]
    · simp [goodPrefixAux, hno, ihres.2]

/-- Claim C1: for every byte limit and every chunk sequence, the reader
never buffers more than the limit; the first chunk whose arrival makes
the running total exceed the limit settles the promise with the
entity-too-large rejection recording that total, and that chunk (and
every later one) is never appended; if the total never exceeds the
limit, nothing is rejected and everything is buffered; and
`parseRequestBody` exposes exactly this stream behaviour whenever the
declared `Content-Length` passed the cheap check. -/
theorem c1_stream_limit_enforced (limitBytes : Nat) (cs : List (List Char)) :
    totalBytes (streamRun limitBytes cs).chunks ≤ limitBytes ∧
    (∀ k, totalBytes (cs.take k) ≤ limitBytes →
      totalBytes (cs.take (k + 1)) > limitBytes →
      (streamRun limitBytes cs).rejection =
        some (entityTooLargeSize (totalBytes (cs.take (k + 1))) limitBytes) ∧
      (streamRun limitBytes cs).chunks = cs.take k) ∧
    (totalBytes cs ≤ limitBytes →
      (streamRun limitBytes cs).rejection = none ∧
      (streamRun limitBytes cs).chunks = cs) ∧
    (∀ limit contentLength, parseLimit limit = .ok limitBytes →
      contentLength ≤ limitBytes →
      parseRequestBody limit contentLength cs =
        ⟨cs.length, (streamRun limitBytes cs).chunks,
          streamOutcome (streamRun limitBytes cs)⟩) := by
  have hrun : streamRun limitBytes cs =
      ⟨goodPrefixAux limitBytes 0 cs, totalBytes cs, rejAux limitBytes 0 cs⟩ := by
    unfold streamRun
    rw [foldl_onData_clean limitBytes cs [] 0]
    simp
  refine ⟨?_, ?_, ?_, ?_⟩
  · rw [hrun]
    simpa using goodPrefixAux_bytes_le limitBytes cs 0 (Nat.zero_le _)
  · intro k h1 h2
    have := overflow_characterization limitBytes cs k 0 (by simpa using h1) (by simpa using h2)
    rw [hrun]
    simpa using this
  · intro h
    have := clean_characterization limitBytes cs 0 (by simpa using h)
    rw [hrun]
    exact this
  · intro limit contentLength hlim hcl
    simp only [parseRequestBody, hlim]
    rw [if_neg (by omega)]

/-- Witness for C1 at limit 4 and chunks of sizes 2 and 3: the second
chunk overflows, the rejection records total 5, and only the first chunk
is buffered (2 bytes ≤ 4). -/
theorem c1_stream_limit_enforced_witness :
    totalBytes (streamRun 4 [['a', 'b'], ['c', 'd', 'e']]).chunks ≤ 4 ∧
    (streamRun 4 [['a', 'b'], ['c', 'd', 'e']]).rejection =
      some (entityTooLargeSize 5 4) ∧
    (streamRun 4 [['a', 'b'], ['c', 'd', 'e']]).chunks = [['a', 'b']] := by
  have h := c1_stream_limit_enforced 4 [['a', 'b'], ['c', 'd', 'e']]
  have h2 := h.2.1 1 (by decide) (by decide)
  exact ⟨h.1, by simpa using h2.1, h2.2⟩

/-- Claim C5: when the declared `Content-Length` exceeds the parsed byte
ceiling, `parseRequestBody` fails at once with the request-entity-too-
large error: no `data` listener is attached, so no chunk is consumed and
nothing is buffered, whatever the stream would have carried. -/
theorem c5_content_length_cheap_rejection
    (limit : String) (limitBytes contentLength : Nat) (cs : List (List Char))
    (hlim : parseLimit limit = .ok limitBytes)
    (hgt : contentLength > limitBytes) :
    parseRequestBody limit contentLength cs =
      ⟨0, [], .error (entityTooLargeCL contentLength limitBytes)⟩ := by
  simp only [parseRequestBody, hlim]
  rw [if_pos hgt]

/-- Witness for C5: limit `"10b"` parses to 10, a declared length of 11
is rejected before the single 3-byte chunk is touched. -/
theorem c5_content_length_cheap_rejection_witness :
    parseLimit "10b" = .ok 10 ∧
    parseRequestBody "10b" 11 [['x', 'y', 'z']] =
      ⟨0, [], .error (entityTooLargeCL 11 10)⟩ := by
  refine ⟨rfl, ?_⟩
  exact c5_content_length_cheap_rejection "10b" 10 11 [['x', 'y', 'z']] rfl (by decide)

/-- Claim C2 (code bug evidence): because `index` starts at `0` and the
guard is `i <= index`, the very first `dispatch(0)` already throws
`'next() called multiple times'`.  For every global chain and every
route chain — including empty ones and chains of perfectly well-behaved
middleware — the request takes the error path with no middleware body
entered and the handler never invoked, so the ordering the claim
describes (global middleware, then route middleware, then handler) can
never be observed. -/
theorem c2_pipeline_never_reaches_middleware
    (globalMws : List MwB) (routeMws : Option (List MwB)) :
    handleRequestCore globalMws routeMws =
      ⟨[], [], false, some "next() called multiple times"⟩ := rfl

/-- Claim C3 (code bug evidence): dispatch rejects with the
double-invocation error `'next() called multiple times'` on a chain
whose only middleware calls its continuation exactly once, on a chain
whose middleware does call it twice, and on the empty chain alike — in
every case with zero middleware invoked, because the initial
`dispatch(0)` trips the `i <= index` guard (`index` initialised to `0`
rather than `-1`).  The error therefore does not indicate a double
invocation. -/
theorem c3_double_invocation_error_fires_spuriously :
    executeMiddleware [MwB.next false] false =
      ⟨⟨0, false, []⟩, some "next() called multiple times"⟩ ∧
    executeMiddleware [MwB.nextTwice false] false =
      ⟨⟨0, false, []⟩, some "next() called multiple times"⟩ ∧
    executeMiddleware [] false =
      ⟨⟨0, false, []⟩, some "next() called multiple times"⟩ := ⟨rfl, rfl, rfl⟩

/-- Claim C6: optional-parameter matching walks pattern and path in
lock-step — when the pattern is exhausted the match succeeds exactly
when every path segment was consumed; an optional segment consumes the
next path segment when one remains and is skipped otherwise; and
`/users/:id?` (also via `enhancedMatchRoute`) matches `/users` with no
parameters and `/users/7` with `id = "7"`. -/
theorem c6_optional_route_lockstep :
    (∀ qs ps, optWalk [] qs ps = ⟨qs.isEmpty, ps⟩) ∧
    (∀ r rs q qs ps, segIsOptional r = true →
      optWalk (r :: rs) (q :: qs) ps =
        optWalk rs qs
          (setField ps (String.mk ((r.drop 1).dropLast))
            (decodeURIComponent (String.mk q)))) ∧
    (∀ r rs ps, segIsOptional r = true →
      optWalk (r :: rs) [] ps = optWalk rs [] ps) ∧
    matchOptionalRoute "/users/:id?" "/users" = ⟨true, []⟩ ∧
    matchOptionalRoute "/users/:id?" "/users/7" = ⟨true, [("id", "7")]⟩ ∧
    enhancedMatchRoute "/users/:id?" "/users" = ⟨true, []⟩ ∧
    enhancedMatchRoute "/users/:id?" "/users/7" = ⟨true, [("id", "7")]⟩ := by
  refine ⟨fun qs ps => rfl, ?_, ?_, by decide, by decide, by decide, by decide⟩
  · intro r rs q qs ps h
    simp [optWalk, h]
  · intro r rs ps h
    simp [optWalk, h]

/-- Witness for the hypothesised conjuncts of C6 at the concrete
optional segment `:id?`: it consumes `7` when present and is skipped
when the path is exhausted. -/
theorem c6_optional_route_lockstep_witness :
    optWalk [[':', 'i', 'd', '?']] [['7']] [] =
      optWalk [] []
        (setField [] (String.mk (([':', 'i', 'd', '?'].drop 1).dropLast))
          (decodeURIComponent (String.mk ['7']))) ∧
    optWalk [[':', 'i', 'd', '?']] [] [] = optWalk [] [] [] :=
  ⟨c6_optional_route_lockstep.2.1 [':', 'i', 'd', '?'] [] ['7'] [] [] (by decide),
   c6_optional_route_lockstep.2.2.1 [':', 'i', 'd', '?'] [] [] (by decide)⟩

/-- Claim C7: the bare pattern `*` matches every path with no
parameters; a pattern ending in `/*` matches exactly the paths that
extend the part before `/*` as a string prefix, binding the rest of the
path (leading slash included when present) to the reserved `wildcard`
parameter; and `/api/*` matches `/api/v1/things` with
`wildcard = "/v1/things"`. -/
theorem c7_wildcard_route :
    (∀ path, matchWildcardRoute "*" path = ⟨true, []⟩) ∧
    (∀ pat path, strEndsWith pat "/*" = true →
      matchWildcardRoute pat path =
        if strStartsWith path (strDropRight pat 2) then
          ⟨true, [("wildcard", strDropFirst path (strLength (strDropRight pat 2)))]⟩
        else ⟨false, []⟩) ∧
    matchWildcardRoute "/api/*" "/api/v1/things" =
      ⟨true, [("wildcard", "/v1/things")]⟩ := by
  refine ⟨fun path => rfl, ?_, by decide⟩
  intro pat path h
  by_cases hp : pat = "*"
  · subst hp
    exact absurd h (by decide)
  · rw [show matchWildcardRoute pat path =
        (if strEndsWith pat "/*" then
          (if strStartsWith path (strDropRight pat 2) then
            ⟨true, [("wildcard", strDropFirst path (strLength (strDropRight pat 2)))]⟩
          else ⟨false, []⟩)
        else ⟨false, []⟩) by simp [matchWildcardRoute, hp]]
    rw [if_pos h]

/-- Witness for the hypothesised conjunct of C7 at `/api/*` against
`/api/v1/things`. -/
theorem c7_wildcard_route_witness :
    matchWildcardRoute "/api/*" "/api/v1/things" =
      if strStartsWith "/api/v1/things" (strDropRight "/api/*" 2) then
        ⟨true, [("wildcard",
          strDropFirst "/api/v1/things" (strLength (strDropRight "/api/*" 2)))]⟩
      else ⟨false, []⟩ :=
  c7_wildcard_route.2.1 "/api/*" "/api/v1/things" (by decide)

lemma filter_splitSegsAux_dup_slash (ys : List Char) :
    ∀ (xs acc : List Char),
      (splitSegsAux acc (xs ++ '/' :: '/' :: ys)).filter (fun l => !l.isEmpty) =
      (splitSegsAux acc (xs ++ '/' :: ys)).filter (fun l => !l.isEmpty) := by
  intro xs
  induction xs with
  | nil =>
    intro acc
    simp [splitSegsAux, List.filter_cons]
  | cons x xs ih =>
    intro acc
    by_cases hx : x = '/'
    · subst hx
      simp [splitSegsAux, List.filter_cons, ih []]
    · simp only [List.cons_append, splitSegsAux, if_neg hx]
      exact ih (x :: acc)

lemma filter_splitSegsAux_trailing_slash :
    ∀ (xs acc : List Char),
      (splitSegsAux acc (xs ++ ['/'])).filter (fun l => !l.isEmpty) =
      (splitSegsAux acc xs).filter (fun l => !l.isEmpty) := by
  intro xs
  induction xs with
  | nil =>
    intro acc
    simp [splitSegsAux, List.filter_cons]
  | cons x xs ih =>
    intro acc
    by_cases hx : x = '/'
    · subst hx
      simp [splitSegsAux, List.filter_cons, ih []]
    · simp only [List.cons_append, splitSegsAux, if_neg hx]
      exact ih (x :: acc)

lemma segsOf_dup_slash (xs ys : List Char) :
    segsOf (String.mk (xs ++ '/' :: '/' :: ys)) =
      segsOf (String.mk (xs ++ '/' :: ys)) := by
  simp only [segsOf]
  exact filter_splitSegsAux_dup_slash ys xs []

lemma segsOf_lead_slash (ys : List Char) :
    segsOf (String.mk ('/' :: ys)) = segsOf (String.mk ys) := by
  simp only [segsOf]
  show (splitSegsAux [] ('/' :: ys)).filter _ = _
  simp [splitSegsAux]

lemma segsOf_trail_slash (xs : List Char) :
    segsOf (String.mk (xs ++ ['/'])) = segsOf (String.mk xs) := by
  simp only [segsOf]
  exact filter_splitSegsAux_trailing_slash xs []

/-- Claim C10: plain matching first drops empty `/`-delimited segments
on both sides (`split("/").filter(Boolean)`), so inserting or removing a
duplicate, leading, or trailing slash in the path or in the pattern
never changes the outcome; in particular `/users/` and `//users` both
match the pattern `/users`. -/
theorem c10_slash_normalisation :
    (∀ pat xs ys, matchRoute pat (String.mk (xs ++ '/' :: '/' :: ys)) =
      matchRoute pat (String.mk (xs ++ '/' :: ys))) ∧
    (∀ path xs ys, matchRoute (String.mk (xs ++ '/' :: '/' :: ys)) path =
      matchRoute (String.mk (xs ++ '/' :: ys)) path) ∧
    (∀ pat ys, matchRoute pat (String.mk ('/' :: ys)) =
      matchRoute pat (String.mk ys)) ∧
    (∀ path ys, matchRoute (String.mk ('/' :: ys)) path =
      matchRoute (String.mk ys) path) ∧
    (∀ pat xs, matchRoute pat (String.mk (xs ++ ['/'])) =
      matchRoute pat (String.mk xs)) ∧
    (∀ path xs, matchRoute (String.mk (xs ++ ['/'])) path =
      matchRoute (String.mk xs) path) ∧
    matchRoute "/users" "/users/" = ⟨true, []⟩ ∧
    matchRoute "/users" "//users" = ⟨true, []⟩ := by
  refine ⟨?_, ?_, ?_, ?_, ?_, ?_, by decide, by decide⟩
  · intro pat xs ys; simp only [matchRoute, segsOf_dup_slash]
  · intro path xs ys; simp only [matchRoute, segsOf_dup_slash]
  · intro pat ys; simp only [matchRoute, segsOf_lead_slash]
  · intro path ys; simp only [matchRoute, segsOf_lead_slash]
  · intro pat xs; simp only [matchRoute, segsOf_trail_slash]
  · intro path xs; simp only [matchRoute, segsOf_trail_slash]

set_option maxRecDepth 10000 in
/-- Claim C8: a boundary-delimited segment whose headers carry a
parsable Content-Disposition with a filename becomes a file entry
(field name, filename, declared MIME type defaulting to octet-stream,
raw body bytes); one without a filename becomes a text field stored
under its name; a segment with no parsable disposition, or no blank-line
separator, is skipped without failing the parse; and a concrete
three-segment body (one field, one file, one malformed segment) parses
to exactly the field and the file. -/
theorem c8_multipart_classification :
    (∀ part fields files, indexOfFrom crlfcrlf part 0 = none →
      processPart part fields files = (fields, files)) ∧
    (∀ part fields files headerEnd, indexOfFrom crlfcrlf part 0 = some headerEnd →
      parseContentDisposition (part.take headerEnd) = none →
      processPart part fields files = (fields, files)) ∧
    (∀ part fields files headerEnd fieldName filename,
      indexOfFrom crlfcrlf part 0 = some headerEnd →
      parseContentDisposition (part.take headerEnd) = some (fieldName, some filename) →
      processPart part fields files =
        (fields, files ++ [⟨fieldName, filename,
          parseContentType (part.take headerEnd), part.drop (headerEnd + 4)⟩])) ∧
    (∀ part fields files headerEnd fieldName,
      indexOfFrom crlfcrlf part 0 = some headerEnd →
      parseContentDisposition (part.take headerEnd) = some (fieldName, none) →
      processPart part fields files =
        (setField fields fieldName (String.mk (part.drop (headerEnd + 4))), files)) ∧
    parseMultipartData
      ("--B\r\nContent-Disposition: form-data; name=\"field1\"\r\n\r\nvalue1\r\n--B\r\nContent-Disposition: form-data; name=\"file1\"; filename=\"a.txt\"\r\nContent-Type: text/plain\r\n\r\nhello\r\n--B\r\njunk\r\n--B--" : String).toList
      "B" =
      ([("field1", "value1\r\n")],
       [⟨"file1", "a.txt", "text/plain", ("hello\r\n" : String).toList⟩]) := by
  refine ⟨?_, ?_, ?_, ?_, by decide⟩
  · intro part fields files h
    simp [processPart, h]
  · intro part fields files headerEnd h1 h2
    simp [processPart, h1, h2]
  · intro part fields files headerEnd fieldName filename h1 h2
    simp [processPart, h1, h2]
  · intro part fields files headerEnd fieldName h1 h2
    simp [processPart, h1, h2]

set_option maxRecDepth 10000 in
/-- Witness for the hypothesised conjuncts of C8 at concrete parts: a
part without separator is skipped, a field part is stored, a file part
is appended. -/
theorem c8_multipart_classification_witness :
    processPart ("\r\njunk\r\n" : String).toList [] [] = ([], []) ∧
    processPart
      ("\r\nContent-Disposition: form-data; name=\"a\"\r\n\r\nv" : String).toList [] [] =
      (setField [] "a"
        (String.mk (("\r\nContent-Disposition: form-data; name=\"a\"\r\n\r\nv" : String).toList.drop
          (42 + 4))), []) ∧
    processPart
      ("\r\nContent-Disposition: form-data; name=\"f\"; filename=\"x\"\r\n\r\nd" : String).toList
      [] [] =
      ([], [] ++ [⟨"f", "x",
        parseContentType
          ((("\r\nContent-Disposition: form-data; name=\"f\"; filename=\"x\"\r\n\r\nd" : String).toList).take 56),
        (("\r\nContent-Disposition: form-data; name=\"f\"; filename=\"x\"\r\n\r\nd" : String).toList.drop
          (56 + 4))⟩]) :=
  ⟨c8_multipart_classification.1 _ [] [] (by decide),
   c8_multipart_classification.2.2.2.1 _ [] [] 42 "a" (by decide) (by decide),
   c8_multipart_classification.2.2.1 _ [] [] 56 "f" "x" (by decide) (by decide)⟩

/-- Claim C9: in production mode an error with status ≥ 500 is reported
with the generic `Internal Server Error` message and without stack,
details or request snapshot; an error with status < 500 keeps its own
message and its details (when present); in development mode message,
stack, details and a request snapshot are all included. -/
theorem c9_error_response_scrubbing {δ : Type} (e : SwiftErrorM δ) (req : ReqM)
    (now : String) :
    (e.statusCode ≥ 500 →
      (formatErrorResponse e req false now).error = "Internal Server Error" ∧
      (formatErrorResponse e req false now).stack = none ∧
      (formatErrorResponse e req false now).details = none ∧
      (formatErrorResponse e req false now).request = none) ∧
    (e.statusCode < 500 →
      (formatErrorResponse e req false now).error = e.message ∧
      (formatErrorResponse e req false now).details = e.details) ∧
    ((formatErrorResponse e req true now).error = e.message ∧
     (formatErrorResponse e req true now).stack = e.stack ∧
     (formatErrorResponse e req true now).details = e.details ∧
     (formatErrorResponse e req true now).request = some req) := by
  refine ⟨?_, ?_, ?_⟩
  · intro h
    refine ⟨?_, rfl, ?_, rfl⟩
    · show (if e.statusCode ≥ 500 then "Internal Server Error" else e.message) =
        "Internal Server Error"
      exact if_pos h
    · show (if e.statusCode < 500 then e.details else none) = none
      exact if_neg (by omega)
  · intro h
    constructor
    · show (if e.statusCode ≥ 500 then "Internal Server Error" else e.message) = e.message
      exact if_neg (by omega)
    · show (if e.statusCode < 500 then e.details else none) = e.details
      exact if_pos h
  · exact ⟨rfl, rfl, rfl, rfl⟩

/-- Witness for C9 at a 500 error (message and details withheld in
production) and a 404 error (message and details preserved). -/
theorem c9_error_response_scrubbing_witness :
    (formatErrorResponse
        (⟨"boom", 500, some "INTERNAL_SERVER_ERROR", some "secret", some "trace"⟩ :
          SwiftErrorM String)
        ⟨"GET", "/x", [], [], []⟩ false "t").error = "Internal Server Error" ∧
    (formatErrorResponse
        (⟨"boom", 500, some "INTERNAL_SERVER_ERROR", some "secret", some "trace"⟩ :
          SwiftErrorM String)
        ⟨"GET", "/x", [], [], []⟩ false "t").details = none ∧
    (formatErrorResponse
        (⟨"missing", 404, some "NOT_FOUND", some "hint", none⟩ : SwiftErrorM String)
        ⟨"GET", "/x", [], [], []⟩ false "t").error = "missing" ∧
    (formatErrorResponse
        (⟨"missing", 404, some "NOT_FOUND", some "hint", none⟩ : SwiftErrorM String)
        ⟨"GET", "/x", [], [], []⟩ false "t").details = some "hint" := by
  have h500 := (c9_error_response_scrubbing
    (⟨"boom", 500, some "INTERNAL_SERVER_ERROR", some "secret", some "trace"⟩ :
      SwiftErrorM String) ⟨"GET", "/x", [], [], []⟩ "t").1 (by decide)
  have h404 := (c9_error_response_scrubbing
    (⟨"missing", 404, some "NOT_FOUND", some "hint", none⟩ : SwiftErrorM String)
    ⟨"GET", "/x", [], [], []⟩ "t").2.1 (by decide)
  exact ⟨h500.1, h500.2.2.1, h404.1, h404.2⟩

end SwiftHttp
